import Mathlib

/-!
Verification of the alert-notification core of cloudprober
(`probes/alerting/notify.go`): the field-mapping builder `alertFields`,
the effectful `notify` entry point, and the command dispatcher
`notifyCommand`.

Shallow embedding conventions:
* Go `map[string]string` is modelled as an association list
  `List (String × String)`; Go map assignment is `mapInsert` (which
  overwrites an existing binding), Go map lookup is `mapGet`.
* Go `string` is modelled as Lean `String` (sequences of Unicode scalar
  values).
* Side effects (log lines, the channel send, the state mutation, process
  start) are modelled as an explicit trace of `Event`s produced in program
  order; the out-of-bounds slice access `cmdParts[0]` on an empty token
  vector is modelled as an explicit `panicked` outcome.
* `encoding/json.Marshal` applied to a `map[string]string` sorts the keys
  and escapes the strings; it is modelled by `goJSONMarshalMap` (total: on
  string maps Go's Marshal cannot fail).  Because the source still contains
  an error branch for it, `alertFieldsWith` abstracts over the marshaller
  so that the error branch of the source can be exercised.
* `time.Time` is opaque here: only its RFC3339 rendering and its default
  `%v` rendering are observable, so `GoTime` carries those two strings.
-/

/-- Modelled from the spec: the target/endpoint model (package
`targets/endpoint`, not in `src/`): "opaque endpoint reference with a
display name, a destination-address accessor, and a mapping of string
labels". `DstAddr` is the value returned by the `Dst()` accessor. -/
structure Endpoint where
  Name : String
  DstAddr : String
  Labels : List (String × String)
deriving Repr, DecidableEq

/-- Modelled from the spec: the `Dst()` destination-address accessor of an
endpoint. -/
def Endpoint.Dst (e : Endpoint) : String := e.DstAddr

/-- Modelled from the spec: an opaque timestamp (`time.Time`), observable
only through its RFC3339 rendering (`Format(time.RFC3339)`) and its
default `%v` rendering. -/
structure GoTime where
  rfc3339 : String
  vstr : String
deriving Repr, DecidableEq

/-- `AlertInfo` contains information about an alert
(struct `AlertInfo` of `notify.go`). -/
structure AlertInfo where
  Name : String
  ProbeName : String
  ConditionID : String
  Target : Endpoint
  Failures : Int
  Total : Int
  FailingSince : GoTime
deriving Repr, DecidableEq

/-- Go map lookup `m[k]` (returning `none` when the key is absent). -/
def mapGet (m : List (String × String)) (key : String) : Option String :=
  (m.find? (fun p => p.1 == key)).map (fun p => p.2)

/-- Go map assignment `m[k] = v`: overwrites any existing binding of `k`. -/
def mapInsert (m : List (String × String)) (k v : String) : List (String × String) :=
  m.filter (fun p => p.1 ≠ k) ++ [(k, v)]

/-- Go `delete(m, k)` / "the mapping with key `k` removed". -/
def mapRemove (m : List (String × String)) (k : String) : List (String × String) :=
  m.filter (fun p => p.1 ≠ k)

/-- Lowercase hexadecimal digit, as used by Go's JSON encoder. -/
def hexDigitChar (n : Nat) : Char :=
  if n < 10 then Char.ofNat (48 + n) else Char.ofNat (87 + n)

/-- Escaping of a single character by Go's JSON string encoder
(`encoding/json`, default HTML-escaping behaviour): `"`, `\`, newline,
carriage return and tab get two-character escapes; other control
characters, and the HTML-sensitive characters, get their six-character
u-escapes, as do U+2028 and U+2029; everything else is emitted as is. -/
def jsonEscapeChar (c : Char) : List Char :=
  if c = '"' then ['\\', '"']
  else if c = '\\' then ['\\', '\\']
  else if c = '\n' then ['\\', 'n']
  else if c = '\r' then ['\\', 'r']
  else if c = '\t' then ['\\', 't']
  else if c.toNat < 32 ∨ c = '<' ∨ c = '>' ∨ c = '&' then
    ['\\', 'u', '0', '0', hexDigitChar (c.toNat / 16), hexDigitChar (c.toNat % 16)]
  else if c.toNat = 0x2028 ∨ c.toNat = 0x2029 then
    ['\\', 'u', '2', '0', '2', hexDigitChar (c.toNat % 16)]
  else [c]

/-- Escaping of a character sequence by Go's JSON string encoder. -/
def jsonEscapeList : List Char → List Char
  | [] => []
  | c :: cs => jsonEscapeChar c ++ jsonEscapeList cs

/-- A JSON string literal for `s` (quotes included), as Go emits it. -/
def jsonQuote (s : String) : List Char :=
  '"' :: (jsonEscapeList s.data ++ ['"'])

/-- One `"key":"value"` member of a JSON object. -/
def jsonRenderPair (kv : String × String) : List Char :=
  jsonQuote kv.1 ++ ':' :: jsonQuote kv.2

/-- The members of a JSON object, comma-separated and closed by the brace
`\x7d`; defined for a nonempty member list. -/
def jsonRenderPairs : List (String × String) → List Char
  | [] => [Char.ofNat 125]
  | [kv] => jsonRenderPair kv ++ [Char.ofNat 125]
  | kv :: rest => jsonRenderPair kv ++ ',' :: jsonRenderPairs rest

/-- Key order used by Go's JSON encoder on maps: keys are sorted (for
valid Unicode strings, UTF-8 byte order coincides with the scalar-value
order of `String`). -/
def jsonSortKeys (m : List (String × String)) : List (String × String) :=
  m.mergeSort (fun p q => decide (p.1 ≤ q.1))

/-- `encoding/json.Marshal` of a `map[string]string`: a JSON object with
the keys sorted and the strings escaped. -/
def jsonMarshalMap (m : List (String × String)) : String :=
  String.mk (Char.ofNat 123 :: jsonRenderPairs (jsonSortKeys m))

/-- `encoding/json.Marshal` of a `map[string]string` never fails in Go
(string keys and values are always encodable); the `Except` codomain
records that the call site still handles an error. -/
def goJSONMarshalMap (m : List (String × String)) : Except String String :=
  .ok (jsonMarshalMap m)

/-- The field mapping built by `alertFields` before the `json` key is
added: the seven reserved keys (map literal of `notify.go` lines 43-51)
followed by one `target.label.<labelname>` assignment per target label
(loop of lines 53-55). -/
def fieldsBeforeJSON (alertInfo : AlertInfo) : List (String × String) :=
  alertInfo.Target.Labels.foldl
    (fun m kv => mapInsert m ("target.label." ++ kv.1) kv.2)
    [("alert", alertInfo.Name),
     ("probe", alertInfo.ProbeName),
     ("target", alertInfo.Target.Dst),
     ("condition_id", alertInfo.ConditionID),
     ("failures", toString alertInfo.Failures),
     ("total", toString alertInfo.Total),
     ("since", alertInfo.FailingSince.rfc3339)]

/-- `alertFields` of `notify.go`, abstracted over the JSON marshaller so
that the error branch of the source (lines 57-60) can be exercised: on a
marshalling error the function returns `nil` (no mapping) and the error;
otherwise it adds the `json` key and returns the mapping.  The pair
mirrors Go's `(map[string]string, error)` return. -/
def alertFieldsWith (marshal : List (String × String) → Except String String)
    (alertInfo : AlertInfo) : Option (List (String × String)) × Option String :=
  let fields := fieldsBeforeJSON alertInfo
  match marshal fields with
  | .error e => (none, some ("error marshalling alert fields into json: " ++ e))
  | .ok alertJSON => (some (mapInsert fields "json" alertJSON), none)

/-- `alertFields` of `notify.go` with the real (total) JSON marshaller. -/
def alertFields (alertInfo : AlertInfo) : Option (List (String × String)) × Option String :=
  alertFieldsWith goJSONMarshalMap alertInfo

/-- Lexer states of the `github.com/google/shlex` word splitter used by
`notifyCommand`: outside a word, inside a word, after a backslash (outside
or inside double quotes), inside double quotes, inside single quotes. -/
inductive ShlexState where
  | startS
  | inWordS
  | escapingS
  | escapingQuotedS
  | quotingEscapingS
  | quotingS
deriving Repr, DecidableEq

/-- The characters `shlex` treats as word separators. -/
def isShlexSpace (c : Char) : Bool :=
  c = ' ' ∨ c = '\t' ∨ c = '\r' ∨ c = '\n'

/-- The `github.com/google/shlex` tokenizer as a state machine over the
input characters: `cur` is the word being accumulated, `words` the words
produced so far.  Double quotes allow backslash escapes, single quotes do
not, a backslash escapes the next character; an unterminated escape or
quote is an error (the messages are the library's). -/
def shlexRun : ShlexState → List Char → List String → List Char → Except String (List String)
  | .startS, _, words, [] => .ok words
  | .inWordS, cur, words, [] => .ok (words ++ [String.mk cur])
  | .escapingS, _, _, [] => .error "EOF found after escape character"
  | .escapingQuotedS, _, _, [] => .error "EOF found after escape character"
  | .quotingEscapingS, _, _, [] => .error "EOF found when expecting closing quote"
  | .quotingS, _, _, [] => .error "EOF found when expecting closing quote"
  | .startS, _, words, c :: rest =>
    if isShlexSpace c then shlexRun .startS [] words rest
    else if c = '"' then shlexRun .quotingEscapingS [] words rest
    else if c = '\'' then shlexRun .quotingS [] words rest
    else if c = '\\' then shlexRun .escapingS [] words rest
    else shlexRun .inWordS [c] words rest
  | .inWordS, cur, words, c :: rest =>
    if isShlexSpace c then shlexRun .startS [] (words ++ [String.mk cur]) rest
    else if c = '"' then shlexRun .quotingEscapingS cur words rest
    else if c = '\'' then shlexRun .quotingS cur words rest
    else if c = '\\' then shlexRun .escapingS cur words rest
    else shlexRun .inWordS (cur ++ [c]) words rest
  | .escapingS, cur, words, c :: rest => shlexRun .inWordS (cur ++ [c]) words rest
  | .escapingQuotedS, cur, words, c :: rest => shlexRun .quotingEscapingS (cur ++ [c]) words rest
  | .quotingEscapingS, cur, words, c :: rest =>
    if c = '"' then shlexRun .inWordS cur words rest
    else if c = '\\' then shlexRun .escapingQuotedS cur words rest
    else shlexRun .quotingEscapingS (cur ++ [c]) words rest
  | .quotingS, cur, words, c :: rest =>
    if c = '\'' then shlexRun .inWordS cur words rest
    else shlexRun .quotingS (cur ++ [c]) words rest

/-- `shlex.Split`: split a shell-like command string into its argument
vector, or fail on an unterminated quote or escape. -/
def shlexSplit (s : String) : Except String (List String) :=
  shlexRun .startS [] [] s.data

/-- Scanner modes of the placeholder scanner (see `SubstituteLabels`):
plain text, just after one opening brace, inside a placeholder name
(characters seen so far, reversed), and inside a placeholder name just
after one closing brace. -/
inductive SubstMode where
  | normal
  | seenOpen
  | inKey (acc : List Char)
  | keyClose (acc : List Char)
deriving Repr, DecidableEq

/-- The placeholder scanner: a placeholder is delimited by a doubled
opening brace and a doubled closing brace; a resolved placeholder is
replaced by its value, an unresolved one is left as literal text and
clears the all-resolved flag, and an unterminated placeholder is plain
text. -/
def substRun (fields : List (String × String)) : SubstMode → List Char → List Char × Bool
  | .normal, [] => ([], true)
  | .normal, c :: rest =>
    if c = '{' then substRun fields .seenOpen rest
    else
      let p := substRun fields .normal rest
      (c :: p.1, p.2)
  | .seenOpen, [] => (['{'], true)
  | .seenOpen, c :: rest =>
    if c = '{' then substRun fields (.inKey []) rest
    else
      let p := substRun fields .normal rest
      ('{' :: c :: p.1, p.2)
  | .inKey acc, [] => ('{' :: '{' :: acc.reverse, true)
  | .inKey acc, c :: rest =>
    if c = '}' then substRun fields (.keyClose acc) rest
    else substRun fields (.inKey (c :: acc)) rest
  | .keyClose acc, [] => ('{' :: '{' :: (acc.reverse ++ ['}']), true)
  | .keyClose acc, c :: rest =>
    if c = '}' then
      let p := substRun fields .normal rest
      match mapGet fields (String.mk acc.reverse) with
      | some v => (v.data ++ p.1, p.2)
      | none => ('{' :: '{' :: (acc.reverse ++ '}' :: '}' :: p.1), false)
    else substRun fields (.inKey (c :: '}' :: acc)) rest

/-- Modelled from the spec: `strtemplate.SubstituteLabels` — "takes a
template string and a key-to-value mapping, returns a substituted string
and whether all placeholders were resolved"; unresolved placeholders are
left as literal text. -/
def SubstituteLabels (s : String) (fields : List (String × String)) : String × Bool :=
  let p := substRun fields .normal s.data
  (String.mk p.1, p.2)

/-- Observable effects of the notification core, in program order:
log lines at the three levels, the channel send of the alert record, the
`alerted`-flag mutation, and a process-start attempt. -/
inductive Event where
  | logWarning (msg : String)
  | logError (msg : String)
  | logInfo (msg : String)
  | channelPush (alertInfo : AlertInfo)
  | setAlerted
  | processStart (args : List String)
deriving Repr, DecidableEq

/-- Outcome of `notifyCommand`: the returned argument vector (`ret []`
models Go's `nil` return), or the runtime panic of the unguarded
`cmdParts[0]` access on an empty token vector. -/
inductive CmdResult where
  | ret (args : List String)
  | panicked
deriving Repr, DecidableEq

/-- The tokenize-and-dispatch tail of `notifyCommand` (lines 102-120 of
`notify.go`), applied to the already-substituted command string: on a
tokenization error, log and return `nil`; otherwise log the resolved
command line, build the command (the unguarded `cmdParts[0]` access
panics on an empty vector), return the argument vector in dry-run mode,
and otherwise attempt to start the process (`startErr` is the
environment's answer to `cmd.Start()`), logging a start failure. -/
def dispatchTokenized (command : String) (dryRun : Bool) (startErr : Option String) :
    CmdResult × List Event :=
  match shlexSplit command with
  | .error e =>
    (.ret [], [Event.logError ("Error parsing command line (" ++ command ++ "): " ++ e)])
  | .ok cmdParts =>
    let infoEv := Event.logInfo ("Starting external command: " ++ String.intercalate " " cmdParts)
    match cmdParts with
    | [] => (.panicked, [infoEv])
    | c0 :: restParts =>
      if dryRun then (.ret (c0 :: restParts), [infoEv])
      else
        match startErr with
        | some e =>
          (.ret [], [infoEv, Event.processStart (c0 :: restParts),
            Event.logError ("error while starting the cmd: " ++ c0 ++ " " ++
              String.intercalate " " (c0 :: restParts) ++ ". Err: " ++ e)])
        | none => (.ret [], [infoEv, Event.processStart (c0 :: restParts)])

/-- `notifyCommand` of `notify.go`: substitute the field placeholders in
the command template (logging a warning when not all of them resolve),
then tokenize and dispatch the substituted string. -/
def notifyCommand (command : String) (fields : List (String × String))
    (dryRun : Bool) (startErr : Option String) : CmdResult × List Event :=
  let s := SubstituteLabels command fields
  let warnEvs :=
    if s.2 then []
    else [Event.logWarning ("couldn't substitute all labels in command: " ++ command)]
  let d := dispatchTokenized s.1 dryRun startErr
  (d.1, warnEvs ++ d.2)

/-- Modelled from the spec: the per-target alert state owned by the
caller (struct `targetState` of the alerting package, not in `src/`):
"`alerted` (boolean, set true on first notify for this breach),
`failingSince` (timestamp), `conditionID` (string)". -/
structure targetState where
  alerted : Bool
  failingSince : GoTime
  conditionID : String
deriving Repr, DecidableEq

/-- Modelled from the spec: the alert condition — "the threshold
specification (`Failures` out of `Total` most recent probe attempts)". -/
structure Condition where
  Failures : Int
  Total : Int
deriving Repr, DecidableEq

/-- Modelled from the spec: the notification configuration carrying the
user-configured command template. -/
structure NotifyConfig where
  Command : String
deriving Repr, DecidableEq

/-- Modelled from the spec: the alert handler (struct `AlertHandler` of
the alerting package, not in `src/`) as `notify` reads it: its static
identity fields, the condition, whether the in-process notification
channel exists (`notifyCh != nil`), and the optional notify
configuration. -/
structure AlertHandler where
  name : String
  probeName : String
  condition : Condition
  notifyChPresent : Bool
  notifyConfig : Option NotifyConfig
deriving Repr, DecidableEq

/-- The `AlertInfo` record built by `notify` (lines 71-79 of
`notify.go`). -/
def mkAlertInfo (ah : AlertHandler) (ep : Endpoint) (ts : targetState)
    (totalFailures : Int) : AlertInfo :=
  { Name := ah.name
    ProbeName := ah.probeName
    ConditionID := ts.conditionID
    Target := ep
    Failures := totalFailures
    Total := ah.condition.Total
    FailingSince := ts.failingSince }

/-- The warning-level audit line logged first by `notify`. -/
def notifyWarnMsg (ah : AlertHandler) (ep : Endpoint) (ts : targetState)
    (totalFailures : Int) : String :=
  "ALERT (" ++ ah.name ++ "): target (" ++ ep.Name ++ "), failures (" ++
    toString totalFailures ++ ") higher than (" ++ toString ah.condition.Failures ++
    ") since (" ++ ts.failingSince.vstr ++ ")"

/-- Result of a `notify` call: the per-target state after the call, the
trace of observable effects in program order, and whether the call ended
in the `cmdParts[0]` panic.  The Go function returns nothing, so the
record has no error component: no error can reach the caller. -/
structure NotifyResult where
  state : targetState
  events : List Event
  panicked : Bool
deriving Repr, DecidableEq

/-- `notify` of `notify.go`, abstracted over the JSON marshaller (see
`alertFieldsWith`): log the audit warning, set `alerted`, build the
`AlertInfo`, push it on the channel when one exists, build the field
mapping (logging a build error; a `nil` mapping reads as empty), and
dispatch the configured command (live mode) when one is configured. -/
def notifyWith (marshal : List (String × String) → Except String String)
    (ah : AlertHandler) (ep : Endpoint) (ts : targetState) (totalFailures : Int)
    (startErr : Option String) : NotifyResult :=
  let warnEv := Event.logWarning (notifyWarnMsg ah ep ts totalFailures)
  let ts' := { ts with alerted := true }
  let alertInfo := mkAlertInfo ah ep ts totalFailures
  let pushEvs := if ah.notifyChPresent then [Event.channelPush alertInfo] else []
  let p := alertFieldsWith marshal alertInfo
  let fieldErrEvs := match p.2 with
    | some e => [Event.logError ("Error getting alert fields: " ++ e)]
    | none => []
  let fields := p.1.getD []
  match ah.notifyConfig with
  | some cfg =>
    if cfg.Command ≠ "" then
      let d := notifyCommand cfg.Command fields false startErr
      { state := ts'
        events := warnEv :: Event.setAlerted :: (pushEvs ++ fieldErrEvs ++ d.2)
        panicked := d.1 = CmdResult.panicked }
    else
      { state := ts'
        events := warnEv :: Event.setAlerted :: (pushEvs ++ fieldErrEvs)
        panicked := false }
  | none =>
    { state := ts'
      events := warnEv :: Event.setAlerted :: (pushEvs ++ fieldErrEvs)
      panicked := false }

/-- `notify` of `notify.go` with the real JSON marshaller. -/
def notify (ah : AlertHandler) (ep : Endpoint) (ts : targetState)
    (totalFailures : Int) (startErr : Option String) : NotifyResult :=
  notifyWith goJSONMarshalMap ah ep ts totalFailures startErr

/-- Value of a hexadecimal digit character, if it is one. -/
def parseHexDigit (c : Char) : Option Nat :=
  if '0' ≤ c ∧ c ≤ '9' then some (c.toNat - 48)
  else if 'a' ≤ c ∧ c ≤ 'f' then some (c.toNat - 87)
  else if 'A' ≤ c ∧ c ≤ 'F' then some (c.toNat - 55)
  else none

/-- JSON two-character escape sequences: the character denoted by `\e`. -/
def jsonUnescapeChar (e : Char) : Option Char :=
  if e = '"' then some '"'
  else if e = '\\' then some '\\'
  else if e = '/' then some '/'
  else if e = 'n' then some '\n'
  else if e = 'r' then some '\r'
  else if e = 't' then some '\t'
  else if e = 'b' then some (Char.ofNat 8)
  else if e = 'f' then some (Char.ofNat 12)
  else none

/-- JSON string-body decoder, positioned after the opening quote: returns
the decoded characters and the input after the closing quote.  A
`\uXXXX` escape denoting an invalid scalar value decodes, as in Go, to
U+FFFD. -/
def parseJString : List Char → Option (List Char × List Char)
  | [] => none
  | c :: rest =>
    if c = '"' then some ([], rest)
    else if c = '\\' then
      match rest with
      | [] => none
      | e :: rest2 =>
        if e = 'u' then
          match rest2 with
          | h1 :: h2 :: h3 :: h4 :: rest3 =>
            match parseHexDigit h1, parseHexDigit h2, parseHexDigit h3, parseHexDigit h4 with
            | some a, some b, some c2, some d =>
              let n := ((a * 16 + b) * 16 + c2) * 16 + d
              let ch := if Nat.isValidChar n then Char.ofNat n else Char.ofNat 0xFFFD
              (parseJString rest3).map (fun p => (ch :: p.1, p.2))
            | _, _, _, _ => none
          | _ => none
        else
          match jsonUnescapeChar e with
          | some ch => (parseJString rest2).map (fun p => (ch :: p.1, p.2))
          | none => none
    else (parseJString rest).map (fun p => (c :: p.1, p.2))

/-- Decoder for the members of a JSON object of strings, positioned after
the opening brace (nonempty member list): returns the decoded pairs and
the input after the closing brace.  `fuel` bounds the number of members
(one unit is spent per member). -/
def parsePairs : Nat → List Char → Option (List (String × String) × List Char)
  | 0, _ => none
  | fuel + 1, cs =>
    match cs with
    | c :: rest =>
      if c = '"' then
        match parseJString rest with
        | some (k, r1) =>
          match r1 with
          | c1 :: c2 :: r2 =>
            if c1 = ':' ∧ c2 = '"' then
              match parseJString r2 with
              | some (v, r3) =>
                match r3 with
                | c3 :: r4 =>
                  if c3 = ',' then
                    (parsePairs fuel r4).map
                      (fun p => ((String.mk k, String.mk v) :: p.1, p.2))
                  else if c3 = '}' then some ([(String.mk k, String.mk v)], r4)
                  else none
                | [] => none
              | none => none
            else none
          | _ => none
        | none => none
      else none
    | [] => none

/-- Decoder for a JSON object of strings (the inverse of
`jsonMarshalMap` on its image): the whole input must be consumed. -/
def jsonDecodeMap (s : String) : Option (List (String × String)) :=
  match s.data with
  | c :: rest =>
    if c = '{' then
      match rest with
      | c2 :: rest2 =>
        if c2 = '}' then (if rest2 = [] then some [] else none)
        else
          match parsePairs rest.length rest with
          | some (m, r) => if r = [] then some m else none
          | none => none
      | [] => none
    else none
  | [] => none

/-- A concrete timestamp used by the concrete test inputs. -/
def sampleTime : GoTime :=
  { rfc3339 := "2023-01-01T00:00:00Z", vstr := "2023-01-01 00:00:00 +0000 UTC" }

/-- A concrete endpoint with one label. -/
def sampleEndpoint : Endpoint :=
  { Name := "host1", DstAddr := "host1", Labels := [("dc", "dc1")] }

/-- A concrete alert record (the spec's concrete scenario). -/
def sampleAlertInfo : AlertInfo :=
  { Name := "disk-full", ProbeName := "disk", ConditionID := "c1",
    Target := sampleEndpoint, Failures := 5, Total := 5, FailingSince := sampleTime }

/-- A JSON marshaller that always fails, exercising the error branch of
`alertFields` (unreachable with Go's marshaller on string maps). -/
def constFailMarshal : List (String × String) → Except String String :=
  fun _ => .error "forced marshal failure"

/-- A concrete per-target state. -/
def sampleState : targetState :=
  { alerted := false, failingSince := sampleTime, conditionID := "c1" }

/-- A concrete alert handler with a channel and a configured command
(the spec's concrete scenario template). -/
def sampleHandler : AlertHandler :=
  { name := "disk-full", probeName := "disk",
    condition := { Failures := 3, Total := 5 },
    notifyChPresent := true,
    notifyConfig := some
      { Command := "notify.sh --target=\x7b\x7btarget\x7d\x7d --failures=\x7b\x7bfailures\x7d\x7d" } }


/-- The reserved field-mapping keys of the spec. -/
def reservedKeys : List String :=
  ["alert", "probe", "target", "condition_id", "failures", "total", "since"]

theorem find?_filter_self (m : List (String × String)) (k : String) :
    List.find? (fun p => p.1 == k) (m.filter (fun p => decide (p.1 ≠ k))) = none := by
  rw [List.find?_eq_none]
  intro x hx
  have := (List.mem_filter.mp hx).2
  simp at this ⊢
  exact this

theorem find?_filter_ne (m : List (String × String)) (k key : String) (h : key ≠ k) :
    List.find? (fun p => p.1 == key) (m.filter (fun p => decide (p.1 ≠ k))) =
      List.find? (fun p => p.1 == key) m := by
  induction m with
  | nil => rfl
  | cons p rest ih =>
    rw [List.filter_cons]
    by_cases hp : p.1 = k
    · have hcond : (decide (p.1 ≠ k)) = false := by simp [hp]
      rw [hcond]
      simp only [Bool.false_eq_true, if_false, ih, List.find?_cons]
      have : (p.1 == key) = false := by
        simp only [beq_eq_false_iff_ne, ne_eq]
        exact fun h2 => h (h2 ▸ hp)
      rw [this]
    · have hcond : (decide (p.1 ≠ k)) = true := by simp [hp]
      rw [hcond]
      simp only [if_true, List.find?_cons]
      cases hpk : (p.1 == key) with
      | true => rfl
      | false => exact ih

theorem mapGet_insert (m : List (String × String)) (k v key : String) :
    mapGet (mapInsert m k v) key = if key = k then some v else mapGet m key := by
  unfold mapGet mapInsert
  rw [List.find?_append]
  by_cases h : key = k
  · subst h
    rw [find?_filter_self]
    simp [List.find?_cons]
  · rw [find?_filter_ne _ _ _ h]
    have hkv : ((k, v).1 == key) = false := by
      simp only [beq_eq_false_iff_ne, ne_eq]
      exact fun h2 => h h2.symm
    simp [List.find?_cons, hkv, h]

theorem mapGet_remove (m : List (String × String)) (k key : String) :
    mapGet (mapRemove m k) key = if key = k then none else mapGet m key := by
  unfold mapGet mapRemove
  by_cases h : key = k
  · subst h
    rw [find?_filter_self]
    simp
  · rw [find?_filter_ne _ _ _ h, if_neg h]

theorem string_data_inj {s t : String} (h : s.data = t.data) : s = t := by
  cases s
  cases t
  simp only at h
  rw [h]

theorem label_prefix_inj {a b : String}
    (h : "target.label." ++ a = "target.label." ++ b) : a = b := by
  have hd : ("target.label." ++ a).data = ("target.label." ++ b).data := by rw [h]
  rw [String.data_append, String.data_append] at hd
  exact string_data_inj (List.append_cancel_left hd)

theorem label_key_ne_short (k s : String) (h : s.length < 13) :
    "target.label." ++ k ≠ s := by
  intro he
  have : ("target.label." ++ k).length = s.length := by rw [he]
  rw [String.length_append] at this
  have h13 : ("target.label." : String).length = 13 := by decide
  omega

theorem labelFold_get_notin (labels : List (String × String))
    (init : List (String × String)) (key : String)
    (h : ∀ kv ∈ labels, "target.label." ++ kv.1 ≠ key) :
    mapGet (labels.foldl (fun m kv => mapInsert m ("target.label." ++ kv.1) kv.2) init) key =
      mapGet init key := by
  induction labels generalizing init with
  | nil => rfl
  | cons kv rest ih =>
    rw [List.foldl_cons, ih]
    · rw [mapGet_insert, if_neg]
      intro h2
      exact h kv (List.mem_cons_self kv rest) h2.symm
    · intro kv2 h2
      exact h kv2 (List.mem_cons_of_mem kv h2)

theorem labelFold_get_mem (labels : List (String × String))
    (init : List (String × String)) (k v : String)
    (hnd : (labels.map Prod.fst).Nodup) (hmem : (k, v) ∈ labels) :
    mapGet (labels.foldl (fun m kv => mapInsert m ("target.label." ++ kv.1) kv.2) init)
      ("target.label." ++ k) = some v := by
  induction labels generalizing init with
  | nil => exact absurd hmem (List.not_mem_nil _)
  | cons kv rest ih =>
    rw [List.foldl_cons]
    rcases List.mem_cons.mp hmem with heq | hrest
    · subst heq
      rw [labelFold_get_notin]
      · rw [mapGet_insert, if_pos rfl]
      · intro kv2 h2 he
        have hk2 : kv2.1 = k := label_prefix_inj he
        have : k ∈ rest.map Prod.fst := hk2 ▸ List.mem_map_of_mem Prod.fst h2
        exact (List.nodup_cons.mp hnd).1 this
    · exact ih _ (List.nodup_cons.mp hnd).2 hrest

theorem labelFold_get_isSome (labels : List (String × String))
    (init : List (String × String)) (key : String)
    (h : (mapGet (labels.foldl (fun m kv => mapInsert m ("target.label." ++ kv.1) kv.2) init)
      key).isSome = true) :
    (mapGet init key).isSome = true ∨ ∃ kv ∈ labels, key = "target.label." ++ kv.1 := by
  induction labels generalizing init with
  | nil => exact Or.inl h
  | cons kv rest ih =>
    rw [List.foldl_cons] at h
    rcases ih _ h with hinit | ⟨kv2, h2, he⟩
    · rw [mapGet_insert] at hinit
      by_cases hk : key = "target.label." ++ kv.1
      · exact Or.inr ⟨kv, List.mem_cons_self kv rest, hk⟩
      · rw [if_neg hk] at hinit
        exact Or.inl hinit
    · exact Or.inr ⟨kv2, List.mem_cons_of_mem kv h2, he⟩

theorem keys_insert (m : List (String × String)) (k v : String) :
    (mapInsert m k v).map Prod.fst = (m.map Prod.fst).filter (fun x => decide (x ≠ k)) ++ [k] := by
  unfold mapInsert
  rw [List.map_append]
  congr 1
  induction m with
  | nil => rfl
  | cons p rest ih =>
    rw [List.filter_cons, List.map_cons, List.filter_cons]
    by_cases hp : p.1 = k
    · simp only [hp, ne_eq, not_true_eq_false, decide_False]
      simpa [hp] using ih
    · have : (decide (p.1 ≠ k)) = true := by simp [hp]
      simp only [this, if_true, List.map_cons]
      rw [ih]

theorem mapGet_cons (p : String × String) (m : List (String × String)) (key : String) :
    mapGet (p :: m) key = if p.1 = key then some p.2 else mapGet m key := by
  by_cases h : p.1 = key
  · simp [mapGet, List.find?_cons, h]
  · have hb : (p.1 == key) = false := by simp [h]
    simp [mapGet, List.find?_cons, hb, h]

theorem nodupKeys_insert (m : List (String × String)) (k v : String)
    (h : (m.map Prod.fst).Nodup) : ((mapInsert m k v).map Prod.fst).Nodup := by
  rw [keys_insert]
  apply List.Nodup.append
  · exact h.filter _
  · exact List.nodup_singleton k
  · intro a ha hb
    have hak : a = k := by simpa using hb
    have := (List.mem_filter.mp ha).2
    simp [hak] at this

theorem nodupKeys_labelFold (labels : List (String × String))
    (init : List (String × String)) (h : (init.map Prod.fst).Nodup) :
    ((labels.foldl (fun m kv => mapInsert m ("target.label." ++ kv.1) kv.2) init).map
      Prod.fst).Nodup := by
  induction labels generalizing init with
  | nil => exact h
  | cons kv rest ih =>
    rw [List.foldl_cons]
    exact ih _ (nodupKeys_insert _ _ _ h)

theorem nodupKeys_fieldsBeforeJSON (a : AlertInfo) :
    ((fieldsBeforeJSON a).map Prod.fst).Nodup := by
  unfold fieldsBeforeJSON
  apply nodupKeys_labelFold
  simp only [List.map_cons, List.map_nil]
  decide

theorem mem_of_mapGet_eq_some {m : List (String × String)} {key v : String}
    (h : mapGet m key = some v) : (key, v) ∈ m := by
  induction m with
  | nil => simp [mapGet] at h
  | cons p rest ih =>
    rw [mapGet_cons] at h
    by_cases hp : p.1 = key
    · rw [if_pos hp] at h
      injection h with hv
      exact List.mem_cons.mpr (Or.inl (by rw [← hp, ← hv]))
    · rw [if_neg hp] at h
      exact List.mem_cons_of_mem p (ih h)

theorem mapGet_eq_some_of_mem {m : List (String × String)} {key v : String}
    (hnd : (m.map Prod.fst).Nodup) (h : (key, v) ∈ m) : mapGet m key = some v := by
  induction m with
  | nil => exact absurd h (List.not_mem_nil _)
  | cons p rest ih =>
    rw [List.map_cons, List.nodup_cons] at hnd
    rw [mapGet_cons]
    rcases List.mem_cons.mp h with heq | hrest
    · rw [← heq]
      simp
    · have hp : p.1 ≠ key := fun hk => hnd.1 (hk ▸ List.mem_map_of_mem Prod.fst hrest)
      rw [if_neg hp]
      exact ih hnd.2 hrest

theorem mapGet_eq_none_iff {m : List (String × String)} {key : String} :
    mapGet m key = none ↔ ∀ v, (key, v) ∉ m := by
  constructor
  · intro h v hmem
    unfold mapGet at h
    have hf := Option.map_eq_none'.mp h
    rw [List.find?_eq_none] at hf
    exact absurd (by simp : ((key, v).1 == key) = true) (by simpa using hf _ hmem)
  · intro h
    unfold mapGet
    rw [Option.map_eq_none', List.find?_eq_none]
    intro p hp hbeq
    have hpk : p.1 = key := by simpa using hbeq
    exact h p.2 (by rw [← hpk]; exact hp)

theorem mapGet_perm {l₁ l₂ : List (String × String)} (key : String)
    (hp : l₁.Perm l₂) (hnd : (l₁.map Prod.fst).Nodup) :
    mapGet l₁ key = mapGet l₂ key := by
  cases h : mapGet l₁ key with
  | none =>
    symm
    rw [mapGet_eq_none_iff] at h ⊢
    intro v hv
    exact h v ((hp.mem_iff).mpr hv)
  | some v =>
    have hmem := mem_of_mapGet_eq_some h
    have hnd2 : (l₂.map Prod.fst).Nodup := ((hp.map Prod.fst).nodup_iff).mp hnd
    exact (mapGet_eq_some_of_mem hnd2 ((hp.mem_iff).mp hmem)).symm

theorem fieldsBefore_get_short (a : AlertInfo) (key : String) (hlen : key.length < 13) :
    mapGet (fieldsBeforeJSON a) key =
      mapGet [("alert", a.Name), ("probe", a.ProbeName), ("target", a.Target.Dst),
        ("condition_id", a.ConditionID), ("failures", toString a.Failures),
        ("total", toString a.Total), ("since", a.FailingSince.rfc3339)] key := by
  unfold fieldsBeforeJSON
  apply labelFold_get_notin
  intro kv _
  exact label_key_ne_short _ _ hlen


theorem string_mk_data (s : String) : String.mk s.data = s := by
  cases s
  rfl

theorem parseHexDigit_hexDigitChar (n : Nat) (h : n < 16) :
    parseHexDigit (hexDigitChar n) = some n := by
  interval_cases n <;> decide

theorem parseJString_cons_lit (c : Char) (h1 : c ≠ '"') (h2 : c ≠ '\\') (tail : List Char) :
    parseJString (c :: tail) = (parseJString tail).map (fun p => (c :: p.1, p.2)) := by
  rw [parseJString.eq_def]
  simp [h1, h2]

theorem parseJString_escape2 (e ch : Char) (he : e ≠ 'u')
    (hch : jsonUnescapeChar e = some ch) (tail : List Char) :
    parseJString ('\\' :: e :: tail) = (parseJString tail).map (fun p => (ch :: p.1, p.2)) := by
  rw [parseJString.eq_def]
  simp [he, hch]

theorem parseJString_u_escape (a b c2 d : Nat) (ha : a < 16) (hb : b < 16) (hc : c2 < 16)
    (hd : d < 16) (tail : List Char) :
    parseJString ('\\' :: 'u' :: hexDigitChar a :: hexDigitChar b :: hexDigitChar c2 ::
        hexDigitChar d :: tail) =
      (parseJString tail).map (fun p =>
        ((if Nat.isValidChar (((a * 16 + b) * 16 + c2) * 16 + d)
          then Char.ofNat (((a * 16 + b) * 16 + c2) * 16 + d)
          else Char.ofNat 0xFFFD) :: p.1, p.2)) := by
  rw [parseJString.eq_def]
  simp [parseHexDigit_hexDigitChar a ha, parseHexDigit_hexDigitChar b hb,
    parseHexDigit_hexDigitChar c2 hc, parseHexDigit_hexDigitChar d hd]

theorem char_toNat_isValidChar (c : Char) : Nat.isValidChar c.toNat := c.valid

theorem parseJString_escapeList (cs rest : List Char) :
    parseJString (jsonEscapeList cs ++ '"' :: rest) = some (cs, rest) := by
  induction cs with
  | nil =>
    rw [jsonEscapeList, List.nil_append, parseJString.eq_def]
    simp
  | cons c cs ih =>
    rw [jsonEscapeList, List.append_assoc]
    by_cases h1 : c = '"'
    · subst h1
      rw [show jsonEscapeChar '"' = ['\\', '"'] from rfl]
      rw [show (['\\', '"'] : List Char) ++ (jsonEscapeList cs ++ '"' :: rest) =
        '\\' :: '"' :: (jsonEscapeList cs ++ '"' :: rest) from rfl]
      rw [parseJString_escape2 '"' '"' (by decide) (by decide) _, ih]
      rfl
    · by_cases h2 : c = '\\'
      · subst h2
        rw [show jsonEscapeChar '\\' = ['\\', '\\'] from rfl]
        rw [show (['\\', '\\'] : List Char) ++ (jsonEscapeList cs ++ '"' :: rest) =
          '\\' :: '\\' :: (jsonEscapeList cs ++ '"' :: rest) from rfl]
        rw [parseJString_escape2 '\\' '\\' (by decide) (by decide) _, ih]
        rfl
      · by_cases h3 : c = '\n'
        · subst h3
          rw [show jsonEscapeChar '\n' = ['\\', 'n'] from rfl]
          rw [show (['\\', 'n'] : List Char) ++ (jsonEscapeList cs ++ '"' :: rest) =
            '\\' :: 'n' :: (jsonEscapeList cs ++ '"' :: rest) from rfl]
          rw [parseJString_escape2 'n' '\n' (by decide) (by decide) _, ih]
          rfl
        · by_cases h4 : c = '\r'
          · subst h4
            rw [show jsonEscapeChar '\r' = ['\\', 'r'] from rfl]
            rw [show (['\\', 'r'] : List Char) ++ (jsonEscapeList cs ++ '"' :: rest) =
              '\\' :: 'r' :: (jsonEscapeList cs ++ '"' :: rest) from rfl]
            rw [parseJString_escape2 'r' '\r' (by decide) (by decide) _, ih]
            rfl
          · by_cases h5 : c = '\t'
            · subst h5
              rw [show jsonEscapeChar '\t' = ['\\', 't'] from rfl]
              rw [show (['\\', 't'] : List Char) ++ (jsonEscapeList cs ++ '"' :: rest) =
                '\\' :: 't' :: (jsonEscapeList cs ++ '"' :: rest) from rfl]
              rw [parseJString_escape2 't' '\t' (by decide) (by decide) _, ih]
              rfl
            · by_cases h6 : c.toNat < 32 ∨ c = '<' ∨ c = '>' ∨ c = '&'
              · have hescape : jsonEscapeChar c =
                    ['\\', 'u', '0', '0', hexDigitChar (c.toNat / 16), hexDigitChar (c.toNat % 16)] := by
                  rw [jsonEscapeChar, if_neg h1, if_neg h2, if_neg h3, if_neg h4, if_neg h5,
                    if_pos h6]
                have hbound : c.toNat < 128 := by
                  rcases h6 with h | h | h | h
                  · omega
                  all_goals (subst h; decide)
                rw [hescape]
                rw [show (['\\', 'u', '0', '0', hexDigitChar (c.toNat / 16),
                    hexDigitChar (c.toNat % 16)] : List Char) ++ (jsonEscapeList cs ++ '"' :: rest) =
                  '\\' :: 'u' :: hexDigitChar 0 :: hexDigitChar 0 :: hexDigitChar (c.toNat / 16) ::
                    hexDigitChar (c.toNat % 16) :: (jsonEscapeList cs ++ '"' :: rest) from rfl]
                rw [parseJString_u_escape 0 0 (c.toNat / 16) (c.toNat % 16) (by omega) (by omega)
                  (by omega) (by omega) _, ih]
                have hn : ((0 * 16 + 0) * 16 + c.toNat / 16) * 16 + c.toNat % 16 = c.toNat := by
                  omega
                rw [hn, if_pos (char_toNat_isValidChar c), Char.ofNat_toNat]
                rfl
              · by_cases h7 : c.toNat = 0x2028 ∨ c.toNat = 0x2029
                · have hescape : jsonEscapeChar c =
                      ['\\', 'u', '2', '0', '2', hexDigitChar (c.toNat % 16)] := by
                    rw [jsonEscapeChar, if_neg h1, if_neg h2, if_neg h3, if_neg h4, if_neg h5,
                      if_neg h6, if_pos h7]
                  rw [hescape]
                  rw [show (['\\', 'u', '2', '0', '2', hexDigitChar (c.toNat % 16)] : List Char) ++
                      (jsonEscapeList cs ++ '"' :: rest) =
                    '\\' :: 'u' :: hexDigitChar 2 :: hexDigitChar 0 :: hexDigitChar 2 ::
                      hexDigitChar (c.toNat % 16) :: (jsonEscapeList cs ++ '"' :: rest) from rfl]
                  rw [parseJString_u_escape 2 0 2 (c.toNat % 16) (by omega) (by omega)
                    (by omega) (by omega) _, ih]
                  have hn : ((2 * 16 + 0) * 16 + 2) * 16 + c.toNat % 16 = c.toNat := by
                    rcases h7 with h | h <;> omega
                  rw [hn, if_pos (char_toNat_isValidChar c), Char.ofNat_toNat]
                  rfl
                · have hescape : jsonEscapeChar c = [c] := by
                    rw [jsonEscapeChar, if_neg h1, if_neg h2, if_neg h3, if_neg h4, if_neg h5,
                      if_neg h6, if_neg h7]
                  rw [hescape]
                  rw [show ([c] : List Char) ++ (jsonEscapeList cs ++ '"' :: rest) =
                    c :: (jsonEscapeList cs ++ '"' :: rest) from rfl]
                  rw [parseJString_cons_lit c h1 h2 _, ih]
                  rfl

theorem parsePairs_render (l : List (String × String)) (fuel : Nat)
    (hne : l ≠ []) (hfuel : l.length ≤ fuel) :
    parsePairs fuel (jsonRenderPairs l) = some (l, []) := by
  induction l generalizing fuel with
  | nil => exact absurd rfl hne
  | cons kv rest ih =>
    cases fuel with
    | zero => simp at hfuel
    | succ f =>
      cases rest with
      | nil =>
        rw [show jsonRenderPairs [kv] = jsonRenderPair kv ++ [Char.ofNat 125] from rfl]
        simp only [jsonRenderPair, jsonQuote, List.append_assoc, List.cons_append,
          List.singleton_append, List.nil_append]
        rw [parsePairs.eq_def]
        simp only [if_pos rfl]
        rw [parseJString_escapeList]
        simp only []
        rw [if_pos (And.intro trivial trivial)]
        rw [parseJString_escapeList]
        simp [string_mk_data]
      | cons kv2 rest2 =>
        rw [show jsonRenderPairs (kv :: kv2 :: rest2) =
          jsonRenderPair kv ++ ',' :: jsonRenderPairs (kv2 :: rest2) from rfl]
        simp only [jsonRenderPair, jsonQuote, List.append_assoc, List.cons_append,
          List.singleton_append, List.nil_append]
        rw [parsePairs.eq_def]
        simp only [if_pos rfl]
        rw [parseJString_escapeList]
        simp only []
        rw [if_pos (And.intro trivial trivial)]
        rw [parseJString_escapeList]
        have hlen : (kv2 :: rest2).length ≤ f := by
          simp only [List.length_cons] at hfuel ⊢
          omega
        simp [string_mk_data, ih f (by simp) hlen]

theorem renderPairs_length (l : List (String × String)) :
    l.length ≤ (jsonRenderPairs l).length := by
  induction l with
  | nil => simp [jsonRenderPairs]
  | cons kv rest ih =>
    cases rest with
    | nil => simp [jsonRenderPairs]
    | cons kv2 rest2 =>
      rw [show jsonRenderPairs (kv :: kv2 :: rest2) =
        jsonRenderPair kv ++ ',' :: jsonRenderPairs (kv2 :: rest2) from rfl]
      simp only [List.length_append, List.length_cons] at ih ⊢
      omega

theorem renderPairs_cons_head (kv : String × String) (rest : List (String × String)) :
    ∃ t, jsonRenderPairs (kv :: rest) = '"' :: t := by
  cases rest with
  | nil => exact ⟨_, rfl⟩
  | cons kv2 rest2 => exact ⟨_, rfl⟩

theorem jsonDecodeMap_marshal (m : List (String × String)) (hne : m ≠ []) :
    jsonDecodeMap (jsonMarshalMap m) = some (jsonSortKeys m) := by
  have hperm : (jsonSortKeys m).Perm m := List.mergeSort_perm m (fun p q => decide (p.1 ≤ q.1))
  have hsne : jsonSortKeys m ≠ [] := by
    intro h
    have hlen := hperm.length_eq
    rw [h] at hlen
    simp only [List.length_nil] at hlen
    exact hne (List.length_eq_zero.mp hlen.symm)
  obtain ⟨kv, rest', hs⟩ : ∃ kv rest', jsonSortKeys m = kv :: rest' := by
    cases hx : jsonSortKeys m with
    | nil => exact absurd hx hsne
    | cons a b => exact ⟨a, b, rfl⟩
  obtain ⟨t, ht⟩ := renderPairs_cons_head kv rest'
  have hfuel : (kv :: rest').length ≤ ('"' :: t).length := by
    rw [← ht, ← hs]
    have := renderPairs_length (jsonSortKeys m)
    rw [hs] at this ⊢
    exact this
  unfold jsonDecodeMap jsonMarshalMap
  rw [show (String.mk (Char.ofNat 123 :: jsonRenderPairs (jsonSortKeys m))).data =
    Char.ofNat 123 :: jsonRenderPairs (jsonSortKeys m) from rfl]
  rw [hs, ht]
  simp only [if_pos (by decide : (Char.ofNat 123) = '{')]
  rw [if_neg (by decide : ¬('"' = '}'))]
  rw [← ht, ← hs]
  rw [if_pos trivial]
  rw [hs]
  rw [parsePairs_render (kv :: rest') _ (by simp) (renderPairs_length (kv :: rest'))]
  simp

theorem mem_reserved_of_isSome (a : AlertInfo) (key : String)
    (h : (mapGet [("alert", a.Name), ("probe", a.ProbeName), ("target", a.Target.Dst),
      ("condition_id", a.ConditionID), ("failures", toString a.Failures),
      ("total", toString a.Total), ("since", a.FailingSince.rfc3339)] key).isSome = true) :
    key ∈ reservedKeys := by
  simp only [mapGet_cons] at h
  by_cases h1 : "alert" = key
  · rw [← h1]; decide
  rw [if_neg h1] at h
  by_cases h2 : "probe" = key
  · rw [← h2]; decide
  rw [if_neg h2] at h
  by_cases h3 : "target" = key
  · rw [← h3]; decide
  rw [if_neg h3] at h
  by_cases h4 : "condition_id" = key
  · rw [← h4]; decide
  rw [if_neg h4] at h
  by_cases h5 : "failures" = key
  · rw [← h5]; decide
  rw [if_neg h5] at h
  by_cases h6 : "total" = key
  · rw [← h6]; decide
  rw [if_neg h6] at h
  by_cases h7 : "since" = key
  · rw [← h7]; decide
  rw [if_neg h7] at h
  simp [mapGet] at h

theorem fieldsBeforeJSON_ne_nil (a : AlertInfo) : fieldsBeforeJSON a ≠ [] := by
  unfold fieldsBeforeJSON
  have : ∀ (labels init : List (String × String)), init ≠ [] →
      labels.foldl (fun m kv => mapInsert m ("target.label." ++ kv.1) kv.2) init ≠ [] := by
    intro labels
    induction labels with
    | nil => intro init h; exact h
    | cons kv rest ih =>
      intro init _
      rw [List.foldl_cons]
      exact ih _ (by simp [mapInsert])
  exact this _ _ (by simp)

theorem fieldsBefore_get_json (a : AlertInfo) :
    mapGet (fieldsBeforeJSON a) "json" = none := by
  cases h : mapGet (fieldsBeforeJSON a) "json" with
  | none => rfl
  | some v =>
    exfalso
    have hsome : (mapGet (fieldsBeforeJSON a) "json").isSome = true := by rw [h]; rfl
    unfold fieldsBeforeJSON at hsome
    rcases labelFold_get_isSome _ _ _ hsome with hinit | ⟨kv, _, he⟩
    · have := mem_reserved_of_isSome a "json" hinit
      revert this
      decide
    · exact label_key_ne_short kv.1 "json" (by decide) he.symm

/-- C2: for every `AlertInfo` whose target labels have distinct keys (the
Go-map invariant), `alertFields` succeeds and returns a mapping containing
exactly the reserved keys `alert`, `probe`, `target`, `condition_id`,
`failures`, `total`, `since` — with `failures` and `total` rendered as
decimal strings, `since` the RFC3339 rendering, `target` the endpoint's
destination address — plus one key `target.label.<labelname>` per target
label, plus a final `json` key. -/
theorem alertFields_exact_keys (a : AlertInfo)
    (hnd : (a.Target.Labels.map Prod.fst).Nodup) :
    ∃ m, alertFields a = (some m, none) ∧
      mapGet m "alert" = some a.Name ∧
      mapGet m "probe" = some a.ProbeName ∧
      mapGet m "target" = some a.Target.Dst ∧
      mapGet m "condition_id" = some a.ConditionID ∧
      mapGet m "failures" = some (toString a.Failures) ∧
      mapGet m "total" = some (toString a.Total) ∧
      mapGet m "since" = some a.FailingSince.rfc3339 ∧
      (∀ kv ∈ a.Target.Labels, mapGet m ("target.label." ++ kv.1) = some kv.2) ∧
      mapGet m "json" = some (jsonMarshalMap (fieldsBeforeJSON a)) ∧
      (∀ key, (mapGet m key).isSome = true →
        key ∈ reservedKeys ∨ key = "json" ∨
          ∃ kv ∈ a.Target.Labels, key = "target.label." ++ kv.1) := by
  refine ⟨mapInsert (fieldsBeforeJSON a) "json" (jsonMarshalMap (fieldsBeforeJSON a)),
    rfl, ?_, ?_, ?_, ?_, ?_, ?_, ?_, ?_, ?_, ?_⟩
  · rw [mapGet_insert, if_neg (by decide), fieldsBefore_get_short a _ (by decide)]; rfl
  · rw [mapGet_insert, if_neg (by decide), fieldsBefore_get_short a _ (by decide)]; rfl
  · rw [mapGet_insert, if_neg (by decide), fieldsBefore_get_short a _ (by decide)]; rfl
  · rw [mapGet_insert, if_neg (by decide), fieldsBefore_get_short a _ (by decide)]; rfl
  · rw [mapGet_insert, if_neg (by decide), fieldsBefore_get_short a _ (by decide)]; rfl
  · rw [mapGet_insert, if_neg (by decide), fieldsBefore_get_short a _ (by decide)]; rfl
  · rw [mapGet_insert, if_neg (by decide), fieldsBefore_get_short a _ (by decide)]; rfl
  · intro kv hkv
    rw [mapGet_insert, if_neg (label_key_ne_short kv.1 "json" (by decide))]
    unfold fieldsBeforeJSON
    exact labelFold_get_mem _ _ kv.1 kv.2 hnd (by simpa using hkv)
  · rw [mapGet_insert, if_pos rfl]
  · intro key hk
    rw [mapGet_insert] at hk
    by_cases hkey : key = "json"
    · exact Or.inr (Or.inl hkey)
    · rw [if_neg hkey] at hk
      unfold fieldsBeforeJSON at hk
      rcases labelFold_get_isSome _ _ _ hk with h | h
      · exact Or.inl (mem_reserved_of_isSome a key h)
      · exact Or.inr (Or.inr h)

/-- Witness for `alertFields_exact_keys` at the concrete
`sampleAlertInfo`. -/
theorem alertFields_exact_keys_witness :
    ((sampleAlertInfo.Target.Labels.map Prod.fst).Nodup) ∧
    (∃ m, alertFields sampleAlertInfo = (some m, none) ∧
      mapGet m "alert" = some sampleAlertInfo.Name ∧
      mapGet m "probe" = some sampleAlertInfo.ProbeName ∧
      mapGet m "target" = some sampleAlertInfo.Target.Dst ∧
      mapGet m "condition_id" = some sampleAlertInfo.ConditionID ∧
      mapGet m "failures" = some (toString sampleAlertInfo.Failures) ∧
      mapGet m "total" = some (toString sampleAlertInfo.Total) ∧
      mapGet m "since" = some sampleAlertInfo.FailingSince.rfc3339 ∧
      (∀ kv ∈ sampleAlertInfo.Target.Labels,
        mapGet m ("target.label." ++ kv.1) = some kv.2) ∧
      mapGet m "json" = some (jsonMarshalMap (fieldsBeforeJSON sampleAlertInfo)) ∧
      (∀ key, (mapGet m key).isSome = true →
        key ∈ reservedKeys ∨ key = "json" ∨
          ∃ kv ∈ sampleAlertInfo.Target.Labels, key = "target.label." ++ kv.1)) :=
  ⟨by decide, alertFields_exact_keys sampleAlertInfo (by decide)⟩

/-- C3: for every `AlertInfo`, `alertFields` succeeds and JSON-decoding
the value stored under the `json` key yields a mapping whose lookups agree
with the returned field mapping with the `json` key removed: the `json`
field is not self-referential. -/
theorem alertFields_json_roundtrip (a : AlertInfo) :
    ∃ m js d, alertFields a = (some m, none) ∧
      mapGet m "json" = some js ∧
      jsonDecodeMap js = some d ∧
      ∀ key, mapGet d key = mapGet (mapRemove m "json") key := by
  refine ⟨mapInsert (fieldsBeforeJSON a) "json" (jsonMarshalMap (fieldsBeforeJSON a)),
    jsonMarshalMap (fieldsBeforeJSON a), jsonSortKeys (fieldsBeforeJSON a),
    rfl, ?_, ?_, ?_⟩
  · rw [mapGet_insert, if_pos rfl]
  · exact jsonDecodeMap_marshal _ (fieldsBeforeJSON_ne_nil a)
  · intro key
    have hperm : (jsonSortKeys (fieldsBeforeJSON a)).Perm (fieldsBeforeJSON a) :=
      List.mergeSort_perm _ _
    have hnd := nodupKeys_fieldsBeforeJSON a
    have hnds : ((jsonSortKeys (fieldsBeforeJSON a)).map Prod.fst).Nodup :=
      ((hperm.map Prod.fst).nodup_iff).mpr hnd
    rw [mapGet_perm key hperm hnds, mapGet_remove]
    by_cases hkey : key = "json"
    · rw [if_pos hkey, hkey, fieldsBefore_get_json]
    · rw [if_neg hkey, mapGet_insert, if_neg hkey]

/-- C1 counterexample: at a concrete input whose JSON marshalling fails,
`alertFields` returns the explicit error but a `nil` mapping — the partial
mapping (which is nonempty) is NOT available to the caller, contradicting
the claim that "the field mapping (minus the json field) is still
available". -/
theorem alertFields_error_counterexample :
    alertFieldsWith constFailMarshal sampleAlertInfo =
      (none, some "error marshalling alert fields into json: forced marshal failure") ∧
    fieldsBeforeJSON sampleAlertInfo ≠ [] ∧
    (alertFieldsWith constFailMarshal sampleAlertInfo).1 ≠
      some (fieldsBeforeJSON sampleAlertInfo) := by
  refine ⟨rfl, by decide, by decide⟩

/-- C1 amended: when JSON encoding of the field set fails, `alertFields`
returns an explicit error together with a `nil` mapping (the computed
partial mapping is discarded), and command dispatch in `notify` proceeds
with that `nil` (empty) mapping after logging the error. -/
theorem alertFields_error_amended
    (marshal : List (String × String) → Except String String)
    (ah : AlertHandler) (ep : Endpoint) (ts : targetState) (totalFailures : Int)
    (startErr : Option String) (cfg : NotifyConfig) (e : String)
    (hcfg : ah.notifyConfig = some cfg) (hcmd : cfg.Command ≠ "")
    (hm : marshal (fieldsBeforeJSON (mkAlertInfo ah ep ts totalFailures)) = .error e) :
    alertFieldsWith marshal (mkAlertInfo ah ep ts totalFailures) =
      (none, some ("error marshalling alert fields into json: " ++ e)) ∧
    (notifyWith marshal ah ep ts totalFailures startErr).events =
      Event.logWarning (notifyWarnMsg ah ep ts totalFailures) :: Event.setAlerted ::
        ((if ah.notifyChPresent then
            [Event.channelPush (mkAlertInfo ah ep ts totalFailures)] else []) ++
          [Event.logError ("Error getting alert fields: " ++
            ("error marshalling alert fields into json: " ++ e))] ++
          (notifyCommand cfg.Command [] false startErr).2) := by
  have h1 : alertFieldsWith marshal (mkAlertInfo ah ep ts totalFailures) =
      (none, some ("error marshalling alert fields into json: " ++ e)) := by
    unfold alertFieldsWith
    simp only [hm]
  refine ⟨h1, ?_⟩
  unfold notifyWith
  simp only [hcfg, h1, Option.getD_none]
  rw [if_pos hcmd]

/-- Witness for `alertFields_error_amended` at concrete inputs. -/
theorem alertFields_error_amended_witness :
    (sampleHandler.notifyConfig = some
      { Command := "notify.sh --target=\x7b\x7btarget\x7d\x7d --failures=\x7b\x7bfailures\x7d\x7d" } ∧
     ("notify.sh --target=\x7b\x7btarget\x7d\x7d --failures=\x7b\x7bfailures\x7d\x7d" : String) ≠ "" ∧
     constFailMarshal (fieldsBeforeJSON (mkAlertInfo sampleHandler sampleEndpoint sampleState 5)) =
       .error "forced marshal failure") ∧
    (alertFieldsWith constFailMarshal (mkAlertInfo sampleHandler sampleEndpoint sampleState 5) =
      (none, some ("error marshalling alert fields into json: " ++ "forced marshal failure")) ∧
    (notifyWith constFailMarshal sampleHandler sampleEndpoint sampleState 5 none).events =
      Event.logWarning (notifyWarnMsg sampleHandler sampleEndpoint sampleState 5) ::
        Event.setAlerted ::
        ((if sampleHandler.notifyChPresent then
            [Event.channelPush (mkAlertInfo sampleHandler sampleEndpoint sampleState 5)] else []) ++
          [Event.logError ("Error getting alert fields: " ++
            ("error marshalling alert fields into json: " ++ "forced marshal failure"))] ++
          (notifyCommand
            "notify.sh --target=\x7b\x7btarget\x7d\x7d --failures=\x7b\x7bfailures\x7d\x7d"
            [] false none).2)) :=
  ⟨⟨rfl, by decide, rfl⟩,
    alertFields_error_amended constFailMarshal sampleHandler sampleEndpoint sampleState 5 none
      { Command := "notify.sh --target=\x7b\x7btarget\x7d\x7d --failures=\x7b\x7bfailures\x7d\x7d" }
      "forced marshal failure" rfl (by decide) rfl⟩

/-- C4: for every `notify` call — over any marshaller outcome, any
configured command (hence any substitution, tokenization or dispatch
failure), and any process-start outcome — the per-target state's `alerted`
flag is set to `true` and the warning-level audit line is the first
emitted event.  `notify` returns nothing in the source, which the model
reflects by `NotifyResult` having no error component: no error can be
returned to the caller. -/
theorem notify_always_flags_and_logs
    (marshal : List (String × String) → Except String String)
    (ah : AlertHandler) (ep : Endpoint) (ts : targetState) (totalFailures : Int)
    (startErr : Option String) :
    (notifyWith marshal ah ep ts totalFailures startErr).state.alerted = true ∧
    (notifyWith marshal ah ep ts totalFailures startErr).events.head? =
      some (Event.logWarning (notifyWarnMsg ah ep ts totalFailures)) := by
  unfold notifyWith
  cases hc : ah.notifyConfig with
  | none => simp
  | some cfg =>
    by_cases hcmd : cfg.Command ≠ ""
    · simp [hcmd]
    · simp [hcmd]

/-- C5: within every single `notify` call the observable effects occur in
the fixed order: the warning audit log, then the `alerted` mutation, then
the optional channel push, then (after the field-build error log, if any)
the optional command dispatch. -/
theorem notify_event_order
    (marshal : List (String × String) → Except String String)
    (ah : AlertHandler) (ep : Endpoint) (ts : targetState) (totalFailures : Int)
    (startErr : Option String) :
    ∃ fieldErrEvs cmdEvs,
      (notifyWith marshal ah ep ts totalFailures startErr).events =
        Event.logWarning (notifyWarnMsg ah ep ts totalFailures) :: Event.setAlerted ::
          ((if ah.notifyChPresent then
              [Event.channelPush (mkAlertInfo ah ep ts totalFailures)] else []) ++
            fieldErrEvs ++ cmdEvs) ∧
      (∀ ev ∈ fieldErrEvs, ∃ msg, ev = Event.logError msg) ∧
      (cmdEvs = [] ∨ ∃ cfg, ah.notifyConfig = some cfg ∧
        cmdEvs = (notifyCommand cfg.Command
          (((alertFieldsWith marshal (mkAlertInfo ah ep ts totalFailures)).1).getD [])
          false startErr).2) := by
  unfold notifyWith
  cases hc : ah.notifyConfig with
  | none =>
    refine ⟨(match (alertFieldsWith marshal (mkAlertInfo ah ep ts totalFailures)).2 with
      | some e => [Event.logError ("Error getting alert fields: " ++ e)]
      | none => []), [], by simp, ?_, Or.inl rfl⟩
    intro ev hev
    cases he : (alertFieldsWith marshal (mkAlertInfo ah ep ts totalFailures)).2 with
    | none => rw [he] at hev; simp at hev
    | some e => rw [he] at hev; simp at hev; exact ⟨_, hev⟩
  | some cfg =>
    by_cases hcmd : cfg.Command ≠ ""
    · refine ⟨(match (alertFieldsWith marshal (mkAlertInfo ah ep ts totalFailures)).2 with
        | some e => [Event.logError ("Error getting alert fields: " ++ e)]
        | none => []),
        (notifyCommand cfg.Command
          (((alertFieldsWith marshal (mkAlertInfo ah ep ts totalFailures)).1).getD [])
          false startErr).2, by simp [hcmd], ?_, Or.inr ⟨cfg, rfl, rfl⟩⟩
      intro ev hev
      cases he : (alertFieldsWith marshal (mkAlertInfo ah ep ts totalFailures)).2 with
      | none => rw [he] at hev; simp at hev
      | some e => rw [he] at hev; simp at hev; exact ⟨_, hev⟩
    · refine ⟨(match (alertFieldsWith marshal (mkAlertInfo ah ep ts totalFailures)).2 with
        | some e => [Event.logError ("Error getting alert fields: " ++ e)]
        | none => []), [], by simp [hcmd], ?_, Or.inl rfl⟩
      intro ev hev
      cases he : (alertFieldsWith marshal (mkAlertInfo ah ep ts totalFailures)).2 with
      | none => rw [he] at hev; simp at hev
      | some e => rw [he] at hev; simp at hev; exact ⟨_, hev⟩

/-- C10: the only field of the per-target state that `notify` mutates is
`alerted`; `failingSince` and `conditionID` are unchanged. -/
theorem notify_frame
    (marshal : List (String × String) → Except String String)
    (ah : AlertHandler) (ep : Endpoint) (ts : targetState) (totalFailures : Int)
    (startErr : Option String) :
    (notifyWith marshal ah ep ts totalFailures startErr).state =
      { alerted := true, failingSince := ts.failingSince, conditionID := ts.conditionID } := by
  unfold notifyWith
  cases hc : ah.notifyConfig with
  | none => simp
  | some cfg =>
    by_cases hcmd : cfg.Command ≠ ""
    · simp [hcmd]
    · simp [hcmd]

/-- C6: whenever tokenization of the substituted command string fails,
`notifyCommand` logs the tokenization error, starts no process, and
returns the empty (`nil`) result; the error goes no further than the
log. -/
theorem notifyCommand_tokenize_error (command : String)
    (fields : List (String × String)) (dryRun : Bool) (startErr : Option String)
    (e : String) (h : shlexSplit (SubstituteLabels command fields).1 = .error e) :
    (notifyCommand command fields dryRun startErr).1 = CmdResult.ret [] ∧
    Event.logError ("Error parsing command line (" ++
        (SubstituteLabels command fields).1 ++ "): " ++ e)
      ∈ (notifyCommand command fields dryRun startErr).2 ∧
    (∀ args, Event.processStart args ∉ (notifyCommand command fields dryRun startErr).2) := by
  have hd : dispatchTokenized (SubstituteLabels command fields).1 dryRun startErr =
      (.ret [], [Event.logError ("Error parsing command line (" ++
        (SubstituteLabels command fields).1 ++ "): " ++ e)]) := by
    unfold dispatchTokenized
    rw [h]
  unfold notifyCommand
  simp only [hd]
  by_cases hall : (SubstituteLabels command fields).2
  · simp [hall]
  · simp [hall]

/-- Witness for `notifyCommand_tokenize_error`: an unterminated single
quote. -/
theorem notifyCommand_tokenize_error_witness :
    shlexSplit (SubstituteLabels "'" []).1 =
      .error "EOF found when expecting closing quote" ∧
    ((notifyCommand "'" [] false none).1 = CmdResult.ret [] ∧
    Event.logError ("Error parsing command line (" ++ (SubstituteLabels "'" []).1 ++ "): " ++
        "EOF found when expecting closing quote")
      ∈ (notifyCommand "'" [] false none).2 ∧
    (∀ args, Event.processStart args ∉ (notifyCommand "'" [] false none).2)) :=
  ⟨rfl, notifyCommand_tokenize_error "'" [] false none
    "EOF found when expecting closing quote" rfl⟩

/-- C8: whenever tokenization of the substituted command succeeds, calling
`notifyCommand` with `dryRun = true` starts no process and returns the
argument vector: head the executable token, tail the shell-tokenization of
the rest of the substituted command. -/
theorem notifyCommand_dryRun_args (command : String)
    (fields : List (String × String)) (startErr : Option String)
    (c0 : String) (rest : List String)
    (h : shlexSplit (SubstituteLabels command fields).1 = .ok (c0 :: rest)) :
    (notifyCommand command fields true startErr).1 = CmdResult.ret (c0 :: rest) ∧
    (∀ args, Event.processStart args ∉ (notifyCommand command fields true startErr).2) := by
  have hd : dispatchTokenized (SubstituteLabels command fields).1 true startErr =
      (.ret (c0 :: rest), [Event.logInfo ("Starting external command: " ++
        String.intercalate " " (c0 :: rest))]) := by
    unfold dispatchTokenized
    rw [h]
    rfl
  unfold notifyCommand
  simp only [hd]
  by_cases hall : (SubstituteLabels command fields).2
  · simp [hall]
  · simp [hall]

/-- Witness for `notifyCommand_dryRun_args`: the spec's concrete scenario
template, whose placeholders resolve to `host1` and `5`. -/
theorem notifyCommand_dryRun_args_witness :
    shlexSplit (SubstituteLabels
        "notify.sh --target=\x7b\x7btarget\x7d\x7d --failures=\x7b\x7bfailures\x7d\x7d"
        [("target", "host1"), ("failures", "5")]).1 =
      .ok ["notify.sh", "--target=host1", "--failures=5"] ∧
    ((notifyCommand "notify.sh --target=\x7b\x7btarget\x7d\x7d --failures=\x7b\x7bfailures\x7d\x7d"
        [("target", "host1"), ("failures", "5")] true none).1 =
      CmdResult.ret ["notify.sh", "--target=host1", "--failures=5"] ∧
    (∀ args, Event.processStart args ∉
      (notifyCommand "notify.sh --target=\x7b\x7btarget\x7d\x7d --failures=\x7b\x7bfailures\x7d\x7d"
        [("target", "host1"), ("failures", "5")] true none).2)) :=
  ⟨rfl, notifyCommand_dryRun_args
    "notify.sh --target=\x7b\x7btarget\x7d\x7d --failures=\x7b\x7bfailures\x7d\x7d"
    [("target", "host1"), ("failures", "5")] none "notify.sh"
    ["--target=host1", "--failures=5"] rfl⟩

/-- C9: a whitespace-only command tokenizes successfully to an empty
argument vector, and `notifyCommand`'s unguarded `cmdParts[0]` access is
then out of bounds (a runtime panic), for either value of `dryRun` and any
start outcome. -/
theorem notifyCommand_empty_vector_panic (dryRun : Bool) (startErr : Option String) :
    shlexSplit (SubstituteLabels " " []).1 = .ok [] ∧
    (notifyCommand " " [] dryRun startErr).1 = CmdResult.panicked := by
  exact ⟨rfl, rfl⟩

theorem string_mk_append (l1 l2 : List Char) :
    String.mk (l1 ++ l2) = String.mk l1 ++ String.mk l2 := rfl

theorem substRun_normal_append (fields : List (String × String)) (pre cs : List Char)
    (h : ∀ c ∈ pre, c ≠ '{') :
    substRun fields .normal (pre ++ cs) =
      (pre ++ (substRun fields .normal cs).1, (substRun fields .normal cs).2) := by
  induction pre with
  | nil => simp
  | cons c pre' ih =>
    have hc : c ≠ '{' := h c (List.mem_cons_self c pre')
    rw [List.cons_append, substRun.eq_def]
    simp only [hc, if_false]
    rw [ih (fun c2 h2 => h c2 (List.mem_cons_of_mem c h2))]
    rfl

theorem substRun_inKey_append (fields : List (String × String)) (key : List Char)
    (acc cs : List Char) (h : ∀ c ∈ key, c ≠ '}') :
    substRun fields (.inKey acc) (key ++ cs) =
      substRun fields (.inKey (key.reverse ++ acc)) cs := by
  induction key generalizing acc with
  | nil => simp
  | cons c key' ih =>
    have hc : c ≠ '}' := h c (List.mem_cons_self c key')
    rw [List.cons_append, substRun.eq_def]
    simp only [hc, if_false]
    rw [ih (c :: acc) (fun c2 h2 => h c2 (List.mem_cons_of_mem c h2))]
    simp [List.append_assoc]

theorem substRun_placeholder_unresolved (fields : List (String × String))
    (key : String) (post : List Char)
    (hkey : ∀ c ∈ key.data, c ≠ '}') (hmiss : mapGet fields key = none) :
    substRun fields .normal ('{' :: '{' :: (key.data ++ '}' :: '}' :: post)) =
      ('{' :: '{' :: (key.data ++ '}' :: '}' :: (substRun fields .normal post).1), false) := by
  rw [substRun.eq_def]
  simp only [if_pos rfl]
  rw [substRun.eq_def]
  simp only [if_pos rfl]
  rw [substRun_inKey_append fields key.data [] _ hkey]
  rw [substRun.eq_def]
  simp only [if_pos rfl]
  rw [substRun.eq_def]
  simp only [if_pos rfl, List.append_nil, List.reverse_reverse, string_mk_data, hmiss]
  simp

/-- C7: for a command template containing a placeholder whose name is not
bound in the field mapping, substitution still returns a string with the
unresolved placeholder left as literal text, the all-resolved flag is
false — so `notifyCommand` logs the warning — and the call proceeds to
tokenization and dispatch with that partially-substituted string. -/
theorem notifyCommand_unresolved_placeholder (pre key post : String)
    (fields : List (String × String)) (dryRun : Bool) (startErr : Option String)
    (hpre : ∀ c ∈ pre.data, c ≠ '{') (hkey : ∀ c ∈ key.data, c ≠ '}')
    (hmiss : mapGet fields key = none) :
    SubstituteLabels (pre ++ "\x7b\x7b" ++ key ++ "\x7d\x7d" ++ post) fields =
      (pre ++ "\x7b\x7b" ++ key ++ "\x7d\x7d" ++ (SubstituteLabels post fields).1, false) ∧
    notifyCommand (pre ++ "\x7b\x7b" ++ key ++ "\x7d\x7d" ++ post) fields dryRun startErr =
      ((dispatchTokenized
          (SubstituteLabels (pre ++ "\x7b\x7b" ++ key ++ "\x7d\x7d" ++ post) fields).1
          dryRun startErr).1,
        Event.logWarning ("couldn't substitute all labels in command: " ++
          (pre ++ "\x7b\x7b" ++ key ++ "\x7d\x7d" ++ post)) ::
        (dispatchTokenized
          (SubstituteLabels (pre ++ "\x7b\x7b" ++ key ++ "\x7d\x7d" ++ post) fields).1
          dryRun startErr).2) := by
  have hdata : (pre ++ "\x7b\x7b" ++ key ++ "\x7d\x7d" ++ post).data =
      pre.data ++ ('{' :: '{' :: (key.data ++ '}' :: '}' :: post.data)) := by
    simp only [String.data_append, show ("\x7b\x7b" : String).data = ['{', '{'] from rfl,
      show ("\x7d\x7d" : String).data = ['}', '}'] from rfl, List.append_assoc,
      List.cons_append, List.nil_append]
  have h1 : SubstituteLabels (pre ++ "\x7b\x7b" ++ key ++ "\x7d\x7d" ++ post) fields =
      (pre ++ "\x7b\x7b" ++ key ++ "\x7d\x7d" ++ (SubstituteLabels post fields).1, false) := by
    unfold SubstituteLabels
    rw [hdata, substRun_normal_append fields pre.data _ hpre,
      substRun_placeholder_unresolved fields key post.data hkey hmiss]
    have hs : String.mk (pre.data ++
        ('{' :: '{' :: (key.data ++ '}' :: '}' :: (substRun fields .normal post.data).1))) =
        pre ++ "\x7b\x7b" ++ key ++ "\x7d\x7d" ++
          String.mk (substRun fields .normal post.data).1 := by
      apply string_data_inj
      simp only [String.data_append, show ("\x7b\x7b" : String).data = ['{', '{'] from rfl,
        show ("\x7d\x7d" : String).data = ['}', '}'] from rfl, List.append_assoc,
        List.cons_append, List.nil_append]
    simp only []
    rw [hs]
  refine ⟨h1, ?_⟩
  unfold notifyCommand
  simp only [h1]
  simp

/-- Witness for `notifyCommand_unresolved_placeholder`: template
`echo \x7b\x7bmissing\x7d\x7d` against an empty field mapping. -/
theorem notifyCommand_unresolved_placeholder_witness :
    ((∀ c ∈ ("echo " : String).data, c ≠ '{') ∧ (∀ c ∈ ("missing" : String).data, c ≠ '}') ∧
      mapGet [] "missing" = none) ∧
    (SubstituteLabels ("echo " ++ "\x7b\x7b" ++ "missing" ++ "\x7d\x7d" ++ "") [] =
      ("echo " ++ "\x7b\x7b" ++ "missing" ++ "\x7d\x7d" ++ (SubstituteLabels "" []).1, false) ∧
    notifyCommand ("echo " ++ "\x7b\x7b" ++ "missing" ++ "\x7d\x7d" ++ "") [] true none =
      ((dispatchTokenized
          (SubstituteLabels ("echo " ++ "\x7b\x7b" ++ "missing" ++ "\x7d\x7d" ++ "") []).1
          true none).1,
        Event.logWarning ("couldn't substitute all labels in command: " ++
          ("echo " ++ "\x7b\x7b" ++ "missing" ++ "\x7d\x7d" ++ "")) ::
        (dispatchTokenized
          (SubstituteLabels ("echo " ++ "\x7b\x7b" ++ "missing" ++ "\x7d\x7d" ++ "") []).1
          true none).2)) :=
  ⟨⟨by decide, by decide, rfl⟩,
    notifyCommand_unresolved_placeholder "echo " "missing" "" [] true none
      (by decide) (by decide) rfl⟩
